import Mathlib

/-!
# cs425-mp1: a network of money-passing processes (`main.c`)

A shallow embedding of `main.c` and the properties of it that were checked.

Conventions of the embedding.

* `process_run` is only ever entered from the fork loop of `main`, with
  `0 ≤ id < num_processes`; process ids, `num_processes` and the values of
  `rand()` are therefore natural numbers, and `num_processes - 1` is exact.
* `rand()` and `RAND_MAX` belong to libc.  `RAND_MAX` is a parameter and every
  value `r` returned by `rand()` is an explicit argument (`0 ≤ r ≤ RAND_MAX`).
* The `double` expression of `randn` is evaluated exactly (as a rational).  At
  the two ends `r = 0` and `r = RAND_MAX` the IEEE evaluation is exact as well:
  `r / RAND_MAX` is `0.0` resp. `1.0` and the product is `0` resp. `n`.
* `money` is a C `int`; it is modelled by a mathematical integer (signed
  overflow is undefined in C and lies outside the model).
* A channel `channels[i][j]` is a FIFO byte stream (`SOCK_STREAM`): bytes
  written on `channels[i][j][0]` are read, in order, from `channels[i][j][1]`.
-/

namespace Mp1

/-! ## Randomness helpers (`main.c` lines 15-27) -/

/-- The function `randn` of `main.c`:
`(int)(((double)rand()) / RAND_MAX * n)`, where `r` is the value returned by
`rand()`.  For non-negative operands the truncation is the floor. -/
def randn (RAND_MAX r n : Nat) : Nat :=
  r * n / RAND_MAX

/-- Lines 23-26 of `random_process`: what is returned once the draw
`result = randn(num_processes - 1)` has been made. -/
def random_process_of_draw (num_processes id result : Nat) : Nat :=
  if result = id then num_processes - 1 else result

/-- The function `random_process` of `main.c`; `r` is the value `rand()`
returns inside `randn`. -/
def random_process (RAND_MAX num_processes r id : Nat) : Nat :=
  random_process_of_draw num_processes id (randn RAND_MAX r (num_processes - 1))

/-! ## Process state and the message protocol (lines 58-90) -/

/-- One byte on the wire. -/
abbrev Byte := Fin 256

/-- The struct `process_t`. -/
structure process_t where
  id : Nat
  money : Int
  deriving DecidableEq, Repr

/-- The function `process_init`. -/
def process_init (id : Nat) : process_t :=
  { id := id, money := 100 }

/-- The end `channels[i][j][e]`, written `(i, j, e)`; `e = 0` is the end of
the sender `i` and `e = 1` the end of the receiver `j`. -/
abbrev Endpoint := Nat × Nat × Nat

/-- Conversion to `unsigned char`. -/
def toByte (n : Nat) : Byte :=
  ⟨n % 256, Nat.mod_lt n (by decide)⟩

/-- What `process_handle_message` did with the descriptor. -/
inductive Handled where
  /-- The first `read` did not return 1: `perror("read error")`. -/
  | readError
  /-- Tag `0x1`: the amount was added to `money`. -/
  | credit
  /-- Any other tag: `"Undefined message type"` was printed. -/
  | undefinedType
  deriving DecidableEq, Repr

/-- The function `process_handle_message` of `main.c`, on the byte stream
pending on `fd`.  It returns the new process state, the bytes left on the
stream and what happened.  An empty stream stands for a first `read` that does
not return 1 (end of file or an error).  The second `read` is unchecked in the
source: when no byte is there, `amt` keeps its indeterminate value, the
argument `uninit`. -/
def process_handle_message (p : process_t) (stream : List Byte) (uninit : Byte) :
    process_t × List Byte × Handled :=
  match stream with
  | [] => (p, [], Handled.readError)
  | type :: rest =>
    if type = 1 then
      match rest with
      | amt :: rest' => ({ p with money := p.money + (amt.val : Int) }, rest', Handled.credit)
      | [] => ({ p with money := p.money + (uninit.val : Int) }, [], Handled.credit)
    else
      (p, rest, Handled.undefinedType)

/-- The function `process_send_message` of `main.c`; `r` is the value `rand()`
returns inside `randn(256)` and `dst` is the argument `to`.  It returns the
new state and the `write` it makes: which end is written to, and the bytes of
`msg`. -/
def process_send_message (RAND_MAX r : Nat) (state : process_t) (dst : Nat) :
    process_t × Endpoint × List Byte :=
  let amt : Byte := toByte (randn RAND_MAX r 256)
  let msg : List Byte := [1, amt]
  ({ state with money := state.money - (amt.val : Int) }, (state.id, dst, 0), msg)

/-! ## `process_run`: the close loop (lines 95-115) -/

/-- The calls of `close` made by the body of the close loop for the cell
`(i, j)`, lines 99-113, in the order they are made. -/
def closeCell (id i j : Nat) : List Endpoint :=
  if i = j then [(i, j, 0), (i, j, 1)]
  else if i = id then [(i, j, 1)]
  else if j = id then [(i, j, 0)]
  else [(i, j, 0), (i, j, 1)]

/-- The close loop of `process_run`, lines 97-115: every end passed to
`close`, in order. -/
def closeLoop (num_processes id : Nat) : List Endpoint :=
  (List.range num_processes).flatMap fun i =>
    (List.range num_processes).flatMap fun j => closeCell id i j

/-- The ends created by the `socketpair` loop of `main` (lines 174-181); the
forked child starts with all of them open. -/
def allEndpoints (num_processes : Nat) : List Endpoint :=
  (List.range num_processes).flatMap fun i =>
    (List.range num_processes).flatMap fun j => [(i, j, 0), (i, j, 1)]

/-- The ends still open in process `id` after the close loop. -/
def heldEndpoints (num_processes id : Nat) : List Endpoint :=
  (allEndpoints num_processes).filter fun ep => decide (ep ∉ closeLoop num_processes id)

/-! ## `process_run`: the poll set and the receive branch (lines 120-143) -/

/-- The array `fds` built at lines 121-129: entry `i` holds `fd = -1`
(`none`) for `i = id` and the end `channels[i][id][1]` otherwise. -/
def fds (num_processes id : Nat) : List (Option Endpoint) :=
  (List.range num_processes).map fun i => if i = id then none else some (i, id, 1)

/-- The call `poll(fds, nfds, timeout)`: only the first `nfds` entries are
looked at.  The result is `revents & POLLIN` of those entries; an entry with a
negative `fd` is ignored by `poll` and gets `revents = 0`.  Which ends the
kernel reports readable is the argument `ready`. -/
def poll (fds : List (Option Endpoint)) (nfds : Nat) (ready : Endpoint → Bool) : List Bool :=
  (fds.take nfds).map fun e =>
    match e with
    | none => false
    | some ep => ready ep

/-- The content of every channel: `chan i j` are the bytes written on
`channels[i][j][0]` and not yet read from `channels[i][j][1]`. -/
abbrev Channels := Nat → Nat → List Byte

/-- Replace the content of the channel from `i` to `j`. -/
def setChan (chan : Channels) (i j : Nat) (s : List Byte) : Channels :=
  fun a b => if a = i ∧ b = j then s else chan a b

/-- The body of the drain loop (lines 140-142) for index `i`.  A `read` on a
negative descriptor fails, which `process_handle_message` reports and
ignores. -/
def drain_step (fds : List (Option Endpoint)) (revents : List Bool) (uninit : Nat → Byte)
    (st : process_t × Channels) (i : Nat) : process_t × Channels :=
  if revents.getD i false then
    match fds.getD i none with
    | some (src, dst, _) =>
      let res := process_handle_message st.1 (st.2 src dst) (uninit i)
      (res.1, setChan st.2 src dst res.2.1)
    | none => st
  else st

/-- The receive branch of `process_run`, lines 138-143:
`poll(fds, num_processes - 1, wait_for)` and then the drain loop
`for (i = 0; i < num_processes - 1; ++i)`. -/
def receive_branch (num_processes : Nat) (ready : Endpoint → Bool) (uninit : Nat → Byte)
    (p : process_t) (chan : Channels) : process_t × Channels :=
  let revents := poll (fds num_processes p.id) (num_processes - 1) ready
  (List.range (num_processes - 1)).foldl
    (drain_step (fds num_processes p.id) revents uninit) (p, chan)

/-! ## `process_run`: the main loop (lines 131-149) -/

/-- One random decision of `process_run`. -/
inductive Draw where
  /-- The value `choice = randn(5)`. -/
  | choice (v : Nat)
  /-- The value of `random_process(p->id)`. -/
  | destination (v : Nat)
  /-- The value `amt` of `process_send_message`. -/
  | amount (v : Nat)
  /-- The value `wait_for = randn(300)`. -/
  | timeout (v : Nat)
  deriving DecidableEq, Repr

/-- What the rest of the system does to one process, per iteration `t` of
its loop: the bytes arriving on the channels before the iteration, the answer
of `poll`, and the indeterminate values of `amt`. -/
structure Env where
  arrivals : Nat → Channels
  ready : Nat → Endpoint → Bool
  uninit : Nat → Nat → Byte

/-- The state of one running process: its `process_t`, the channels as it
sees them, the number of calls of `rand()` made so far, and the logs of its
draws and of its `write` calls. -/
structure RunState where
  p : process_t
  chan : Channels
  calls : Nat
  draws : List Draw
  writes : List (Endpoint × List Byte)

/-- One iteration `t` of the `while (1)` loop of `process_run`, lines 131-149;
`rand k` is the value of the `k`-th call of `rand()` after `srand`. -/
def process_run_step (RAND_MAX num_processes : Nat) (rand : Nat → Nat) (env : Env)
    (s : RunState) (t : Nat) : RunState :=
  let chan : Channels := fun a b => s.chan a b ++ env.arrivals t a b
  let choice := randn RAND_MAX (rand s.calls) 5
  if choice ≠ 0 then
    let dst := random_process RAND_MAX num_processes (rand (s.calls + 1)) s.p.id
    let res := process_send_message RAND_MAX (rand (s.calls + 2)) s.p dst
    { p := res.1
      chan := chan
      calls := s.calls + 3
      draws := s.draws ++
        [Draw.choice choice, Draw.destination dst, Draw.amount (res.2.2.getD 1 0).val]
      writes := s.writes ++ [res.2] }
  else
    let wait_for := randn RAND_MAX (rand (s.calls + 1)) 300
    let res := receive_branch num_processes (env.ready t) (env.uninit t) s.p chan
    { p := res.1
      chan := res.2
      calls := s.calls + 2
      draws := s.draws ++ [Draw.choice choice, Draw.timeout wait_for]
      writes := s.writes }

/-- The first `fuel` iterations of `process_run`.  `srand_rand x k` is the
value of the `k`-th call of `rand()` after `srand(x)`; line 93 calls
`srand(seed + p->id)`.  The close loop and the construction of `fds` that come
before the `while` loop make no call of `rand()`. -/
def process_run (RAND_MAX num_processes : Nat) (seed : Int) (srand_rand : Int → Nat → Nat)
    (env : Env) (p : process_t) (chan : Channels) (fuel : Nat) : RunState :=
  (List.range fuel).foldl
    (process_run_step RAND_MAX num_processes (srand_rand (seed + (p.id : Int))) env)
    { p := p, chan := chan, calls := 0, draws := [], writes := [] }

/-! ## The whole system: all processes and all channels -/

/-- The state of the system: the `money` of every process (process `i` has
`id = i`) and the content of every channel. -/
structure Network where
  money : Nat → Int
  chan : Channels

/-- The system right after the fork loop of `main`: every process went
through `process_init`, nothing was written yet. -/
def Network.init : Network :=
  { money := fun i => (process_init i).money, chan := fun _ _ => [] }

/-- Replace the `money` of process `i`. -/
def setMoney (money : Nat → Int) (i : Nat) (v : Int) : Nat → Int :=
  fun a => if a = i then v else money a

/-- One move of one process. -/
inductive Action where
  /-- Process `i` runs `process_send_message(p, j)`; `rand()` returns `r`. -/
  | send (i j r : Nat)
  /-- Process `j` runs `process_handle_message(p, channels[i][j][1])`. -/
  | handle (i j : Nat) (uninit : Byte)
  /-- Process `k` runs the receive branch with the given answer of `poll`. -/
  | receive (k : Nat) (ready : Endpoint → Bool) (uninit : Nat → Byte)

/-- Process `i` sends to `j`: the bytes of the `write` on `channels[i][j][0]`
are appended to the channel from `i` to `j`. -/
def Network.send (RAND_MAX : Nat) (s : Network) (i j r : Nat) : Network :=
  let res := process_send_message RAND_MAX r { id := i, money := s.money i } j
  { money := setMoney s.money i res.1.money
    chan := setChan s.chan res.2.1.1 res.2.1.2.1 (s.chan res.2.1.1 res.2.1.2.1 ++ res.2.2) }

/-- Process `j` handles what is pending on the channel from `i`. -/
def Network.handle (s : Network) (i j : Nat) (uninit : Byte) : Network :=
  let res := process_handle_message { id := j, money := s.money j } (s.chan i j) uninit
  { money := setMoney s.money j res.1.money, chan := setChan s.chan i j res.2.1 }

/-- Process `k` runs the receive branch once. -/
def Network.receive (num_processes : Nat) (s : Network) (k : Nat) (ready : Endpoint → Bool)
    (uninit : Nat → Byte) : Network :=
  let res := receive_branch num_processes ready uninit { id := k, money := s.money k } s.chan
  { money := setMoney s.money k res.1.money, chan := res.2 }

/-- One step of the system.  Only processes `0 .. num_processes - 1` exist, and
a send goes to another process. -/
def Network.step (RAND_MAX num_processes : Nat) (s : Network) : Action → Option Network
  | Action.send i j r =>
    if i < num_processes ∧ j < num_processes ∧ i ≠ j then some (s.send RAND_MAX i j r) else none
  | Action.handle i j uninit =>
    if i < num_processes ∧ j < num_processes then some (s.handle i j uninit) else none
  | Action.receive k ready uninit =>
    if k < num_processes then some (s.receive num_processes k ready uninit) else none

/-- Run a list of actions from a state. -/
def Network.exec (RAND_MAX num_processes : Nat) : Network → List Action → Option Network
  | s, [] => some s
  | s, a :: as =>
    match s.step RAND_MAX num_processes a with
    | some s' => Network.exec RAND_MAX num_processes s' as
    | none => none

/-- The sum of the amounts of the frames queued on one stream, read the way
`process_handle_message` reads it: a tag `0x1` is followed by its amount byte,
any other tag is a frame of its own and carries no amount. -/
def inFlight : List Byte → Int
  | [] => 0
  | [_] => 0
  | type :: amt :: rest =>
    if type = 1 then (amt.val : Int) + inFlight rest else inFlight (amt :: rest)

/-- The money of the system: all balances plus all amounts in flight. -/
def Network.total (num_processes : Nat) (s : Network) : Int :=
  (∑ i in Finset.range num_processes, s.money i) +
    ∑ i in Finset.range num_processes, ∑ j in Finset.range num_processes, inFlight (s.chan i j)

/-- The poll answer in which every end with pending data is readable. -/
def pendingReady (chan : Channels) : Endpoint → Bool :=
  fun ep => decide (chan ep.1 ep.2.1 ≠ [])

/-- Every process of the list, in turn, runs the receive branch once; `poll`
reports every polled end with pending data as readable. -/
def Network.receiveAll (num_processes : Nat) (uninit : Nat → Byte) : Network → List Nat → Network
  | s, [] => s
  | s, k :: ks =>
    Network.receiveAll num_processes uninit
      (s.receive num_processes k (pendingReady s.chan) uninit) ks

/-! ## Definitions used to state the properties -/

/-- The ends the comment at lines 117-118 announces: the send ends
`channels[id][j][0]` and then the receive ends `channels[i][id][1]`, for the
other processes in increasing order. -/
def ownEndpoints (num_processes id : Nat) : List Endpoint :=
  ((List.range num_processes).erase id).map (fun j => (id, j, 0)) ++
    ((List.range num_processes).erase id).map (fun i => (i, id, 1))

/-- What one call of `process_handle_message` adds to `money`. -/
def creditAmount (stream : List Byte) (uninit : Byte) : Int :=
  match stream with
  | [] => 0
  | type :: rest =>
    if type = 1 then
      match rest with
      | amt :: _ => (amt.val : Int)
      | [] => (uninit.val : Int)
    else 0

/-- The bytes one call of `process_handle_message` leaves on the stream. -/
def restAfter (stream : List Byte) : List Byte :=
  match stream with
  | [] => []
  | type :: rest => if type = 1 then rest.tail else rest

/-- The bytes of a sequence of Credit frames with the given amounts. -/
def encode (amounts : List Byte) : List Byte :=
  amounts.flatMap fun a => [1, a]

/-- A stream that consists of complete Credit frames. -/
def WellFramed (stream : List Byte) : Prop :=
  ∃ amounts, stream = encode amounts

/-- The invariant: every channel holds complete Credit frames only, and the
balances plus the amounts in flight add up to `100 * num_processes`. -/
def Conserved (num_processes : Nat) (s : Network) : Prop :=
  (∀ i j, WellFramed (s.chan i j)) ∧ s.total num_processes = 100 * (num_processes : Int)

/-- Two run states agree on everything the draws depend on or record. -/
def SameDraws (s1 s2 : RunState) : Prop :=
  s1.p.id = s2.p.id ∧ s1.calls = s2.calls ∧ s1.draws = s2.draws ∧ s1.writes = s2.writes

/-- The channels of the example for C7: process 3 has an unknown frame
pending from process 0 and Credit frames of 30 and 5 from processes 1 and 2. -/
def exampleChannels : Channels :=
  fun a b =>
    if b = 3 then
      (if a = 0 then [2, 9] else if a = 1 then [1, 30] else if a = 2 then [1, 5, 1, 8] else [])
    else []

/-- A run of two processes: 0 sends 30 to 1, 1 sends 10 to 0, then 1 handles
the frame from 0. -/
def exampleTrace : List Action :=
  [Action.send 0 1 251658240, Action.send 1 0 83886080, Action.handle 0 1 0]

/-! ## Facts about `randn` and `random_process` -/

theorem randn_rand_max (m n : Nat) : randn (m + 1) (m + 1) n = n := by
  unfold randn
  exact Nat.mul_div_cancel_left n (Nat.succ_pos m)

theorem randn_lt_of_lt (RAND_MAX r n : Nat) (hr : r < RAND_MAX) (hn : 0 < n) :
    randn RAND_MAX r n < n := by
  unfold randn
  rw [Nat.div_lt_iff_lt_mul (by omega), Nat.mul_comm r n]
  exact (Nat.mul_lt_mul_left hn).2 hr

theorem randn_le (RAND_MAX r n : Nat) (hr : r ≤ RAND_MAX) (hpos : 0 < RAND_MAX) :
    randn RAND_MAX r n ≤ n := by
  unfold randn
  calc r * n / RAND_MAX ≤ RAND_MAX * n / RAND_MAX :=
        Nat.div_le_div_right (Nat.mul_le_mul_right n hr)
    _ = n := Nat.mul_div_cancel_left n hpos

theorem random_process_lt (RAND_MAX num_processes r id : Nat) (hN : 1 ≤ num_processes)
    (hr : r ≤ RAND_MAX) (hpos : 0 < RAND_MAX) :
    random_process RAND_MAX num_processes r id < num_processes := by
  have h := randn_le RAND_MAX r (num_processes - 1) hr hpos
  unfold random_process random_process_of_draw
  split_ifs <;> omega

/-- Below `RAND_MAX` the destination is another process. -/
theorem random_process_ne_self (RAND_MAX num_processes r id : Nat) (hN : 2 ≤ num_processes)
    (hr : r < RAND_MAX) : random_process RAND_MAX num_processes r id ≠ id := by
  have h := randn_lt_of_lt RAND_MAX r (num_processes - 1) hr (by omega)
  unfold random_process random_process_of_draw
  split_ifs with heq
  · omega
  · exact heq

/-- Claim C9, evaluated where it fails: when `rand()` returns `RAND_MAX`
(written `m + 1`) the function `randn` returns `n` itself, not a member of
`{0, ..., n-1}`; so `randn(5)` can be 5 and `randn(300)` can be 300. -/
theorem C9_randn_returns_n_at_rand_max :
    (∀ m n : Nat, randn (m + 1) (m + 1) n = n) ∧
      randn 2147483647 2147483647 5 = 5 ∧ randn 2147483647 2147483647 300 = 300 ∧
      randn 32767 32767 5 = 5 ∧ randn 32767 32767 300 = 300 :=
  ⟨randn_rand_max, by decide, by decide, by decide, by decide⟩

/-- Claim C6, evaluated where it fails: when `rand()` returns `RAND_MAX`
(written `m + 1`), `random_process` called by the last process
`id = num_processes - 1` (with `num_processes = n + 2`) returns that same
`id`. -/
theorem C6_random_process_returns_self :
    (∀ m n : Nat, random_process (m + 1) (n + 2) (m + 1) (n + 1) = n + 1) ∧
      random_process 2147483647 2 2147483647 1 = 1 := by
  refine ⟨fun m n => ?_, by decide⟩
  unfold random_process random_process_of_draw
  rw [randn_rand_max]
  simp

/-- Claim C10: for `num_processes ≥ 2` and `0 ≤ id < num_processes`, the map
from the draw `result = randn(num_processes - 1)` in `{0, ..., num_processes - 2}`
to the value returned by `random_process(id)` is a bijection onto the ids
`{0, ..., num_processes - 1}` other than `id`; every other process is the
destination for exactly one value of the draw. -/
theorem C10_random_process_of_draw_bijective (num_processes id : Nat)
    (hN : 2 ≤ num_processes) (hid : id < num_processes) :
    Set.BijOn (random_process_of_draw num_processes id)
        {result | result < num_processes - 1} {j | j < num_processes ∧ j ≠ id} ∧
      ∀ j, j < num_processes → j ≠ id →
        ∃! result, result < num_processes - 1 ∧
          random_process_of_draw num_processes id result = j := by
  refine ⟨⟨?_, ?_, ?_⟩, ?_⟩
  · intro result hres
    simp only [Set.mem_setOf_eq] at hres ⊢
    unfold random_process_of_draw
    split_ifs with h <;> omega
  · intro a ha b hb hab
    simp only [Set.mem_setOf_eq] at ha hb
    unfold random_process_of_draw at hab
    split_ifs at hab <;> omega
  · intro j hj
    simp only [Set.mem_setOf_eq] at hj
    by_cases hlast : j = num_processes - 1
    · refine ⟨id, ?_, ?_⟩
      · simp only [Set.mem_setOf_eq]; omega
      · simp [random_process_of_draw, hlast]
    · refine ⟨j, ?_, ?_⟩
      · simp only [Set.mem_setOf_eq]; omega
      · simp [random_process_of_draw, hj.2]
  · intro j hj hne
    by_cases hlast : j = num_processes - 1
    · refine ⟨id, ⟨by omega, by simp [random_process_of_draw, hlast]⟩, ?_⟩
      rintro y ⟨hy, hy2⟩
      unfold random_process_of_draw at hy2
      split_ifs at hy2 <;> omega
    · refine ⟨j, ⟨by omega, by simp [random_process_of_draw, hne]⟩, ?_⟩
      rintro y ⟨hy, hy2⟩
      unfold random_process_of_draw at hy2
      split_ifs at hy2 <;> omega

theorem C10_random_process_of_draw_bijective_witness :
    (2 ≤ 4 ∧ 1 < 4) ∧
      (Set.BijOn (random_process_of_draw 4 1) {result | result < 4 - 1} {j | j < 4 ∧ j ≠ 1} ∧
        ∀ j, j < 4 → j ≠ 1 → ∃! result, result < 4 - 1 ∧ random_process_of_draw 4 1 result = j) :=
  ⟨by decide, C10_random_process_of_draw_bijective 4 1 (by decide) (by decide)⟩

/-! ## The message protocol -/

theorem toByte_val (a : Byte) : toByte a.val = a := by
  apply Fin.ext
  simp only [toByte]
  exact Nat.mod_eq_of_lt a.isLt

/-- Every byte is the amount of some draw, as soon as `RAND_MAX ≥ 256`. -/
theorem amount_attained (RAND_MAX : Nat) (hRM : 256 ≤ RAND_MAX) (a : Byte) :
    ∃ r, r ≤ RAND_MAX ∧ toByte (randn RAND_MAX r 256) = a := by
  have ha : a.val < 256 := a.isLt
  refine ⟨(a.val * RAND_MAX + 255) / 256, ?_, ?_⟩
  · have : a.val * RAND_MAX ≤ 255 * RAND_MAX := Nat.mul_le_mul_right _ (by omega)
    omega
  · have hq : randn RAND_MAX ((a.val * RAND_MAX + 255) / 256) 256 = a.val := by
      unfold randn
      apply Nat.div_eq_of_lt_le
      · omega
      · rw [Nat.succ_mul]
        omega
    rw [hq]
    exact toByte_val a

theorem process_handle_message_credit (q : process_t) (a : Byte) (rest : List Byte)
    (uninit : Byte) :
    process_handle_message q (1 :: a :: rest) uninit =
      ({ q with money := q.money + (a.val : Int) }, rest, Handled.credit) := by
  simp [process_handle_message]

theorem process_handle_message_other (p : process_t) (t : Byte) (rest : List Byte)
    (uninit : Byte) (ht : t ≠ 1) :
    process_handle_message p (t :: rest) uninit = (p, rest, Handled.undefinedType) := by
  simp [process_handle_message, ht]

/-- Claim C3: for every amount `a` in `[0, 255]` (some draw of `randn(256)`
gives it, as `RAND_MAX` is at least 32767 in ISO C), the frame `process_send_message` writes for the amount `a` is
exactly the two bytes `[0x01, a]`, on `channels[id][to][0]`, and
`process_handle_message` reading that frame (both bytes are there) takes the
Credit branch, adds exactly `a` to the balance of the receiver and consumes
exactly those two bytes. -/
theorem C3_credit_round_trip (RAND_MAX : Nat) (hRM : 256 ≤ RAND_MAX) (a : Byte) :
    (∃ r, r ≤ RAND_MAX ∧ toByte (randn RAND_MAX r 256) = a) ∧
      ∀ r, toByte (randn RAND_MAX r 256) = a →
        ∀ (state q : process_t) (dst : Nat) (rest : List Byte) (uninit : Byte),
          (process_send_message RAND_MAX r state dst).2.2 = [1, a] ∧
          (process_send_message RAND_MAX r state dst).2.1 = (state.id, dst, 0) ∧
          process_handle_message q
              ((process_send_message RAND_MAX r state dst).2.2 ++ rest) uninit =
            ({ id := q.id, money := q.money + (a.val : Int) }, rest, Handled.credit) := by
  refine ⟨amount_attained RAND_MAX hRM a, ?_⟩
  intro r hr state q dst rest uninit
  have hmsg : (process_send_message RAND_MAX r state dst).2.2 = [1, a] := by
    simp [process_send_message, hr]
  refine ⟨hmsg, rfl, ?_⟩
  rw [hmsg]
  exact process_handle_message_credit q a rest uninit

theorem C3_credit_round_trip_witness :
    256 ≤ 2147483647 ∧
      ((process_send_message 2147483647 251658240 (process_init 0) 1).2.2 = [1, 30] ∧
        process_handle_message (process_init 1)
            ((process_send_message 2147483647 251658240 (process_init 0) 1).2.2 ++ [1, 7]) 0 =
          ({ id := 1, money := 100 + 30 }, [1, 7], Handled.credit)) :=
  ⟨by decide,
    ((C3_credit_round_trip 2147483647 (by decide) 30).2 251658240 (by decide)
        (process_init 0) (process_init 1) 1 [1, 7] 0).1,
    ((C3_credit_round_trip 2147483647 (by decide) 30).2 251658240 (by decide)
        (process_init 0) (process_init 1) 1 [1, 7] 0).2.2⟩

/-! ## The close loop -/

/-- A double loop over the cells lists no end twice when no cell does and
every cell only lists its own ends. -/
theorem nodup_cells (n : Nat) (f : Nat → Nat → List Endpoint)
    (hnd : ∀ i j, (f i j).Nodup)
    (hcell : ∀ i j ep, ep ∈ f i j → ep.1 = i ∧ ep.2.1 = j) :
    ((List.range n).flatMap fun i => (List.range n).flatMap fun j => f i j).Nodup := by
  rw [List.nodup_flatMap]
  constructor
  · intro i _
    rw [List.nodup_flatMap]
    refine ⟨fun j _ => hnd i j, ?_⟩
    refine (List.pairwise_lt_range n).imp ?_
    intro a b hab ep h1 h2
    have e1 := (hcell i a ep h1).2
    have e2 := (hcell i b ep h2).2
    omega
  · refine (List.pairwise_lt_range n).imp ?_
    intro a b hab ep h1 h2
    simp only [List.mem_flatMap] at h1 h2
    obtain ⟨j1, _, m1⟩ := h1
    obtain ⟨j2, _, m2⟩ := h2
    have e1 := (hcell a j1 ep m1).1
    have e2 := (hcell b j2 ep m2).1
    omega

theorem mem_closeCell (id i j : Nat) (ep : Endpoint) :
    ep ∈ closeCell id i j ↔
      ep.1 = i ∧ ep.2.1 = j ∧ ep.2.2 < 2 ∧
        ¬ ((i = id ∧ j ≠ id ∧ ep.2.2 = 0) ∨ (j = id ∧ i ≠ id ∧ ep.2.2 = 1)) := by
  obtain ⟨a, b, e⟩ := ep
  unfold closeCell
  split_ifs with h1 h2 h3 <;> simp only [List.mem_cons, List.mem_singleton, Prod.mk.injEq,
    List.mem_nil_iff, or_false] <;> constructor
  all_goals first
    | (rintro (⟨rfl, rfl, rfl⟩ | ⟨rfl, rfl, rfl⟩) <;> refine ⟨rfl, rfl, by omega, ?_⟩ <;> omega)
    | (rintro ⟨rfl, rfl, rfl⟩; refine ⟨rfl, rfl, by omega, ?_⟩; omega)
    | (rintro ⟨rfl, rfl, h, h'⟩
       first
         | (refine ⟨rfl, rfl, ?_⟩; omega)
         | (have : e = 0 ∨ e = 1 := by omega
            rcases this with rfl | rfl
            · exact Or.inl ⟨rfl, rfl, rfl⟩
            · exact Or.inr ⟨rfl, rfl, rfl⟩))

theorem closeCell_nodup (id i j : Nat) : (closeCell id i j).Nodup := by
  unfold closeCell
  split_ifs <;> simp

theorem mem_closeLoop (n id : Nat) (ep : Endpoint) :
    ep ∈ closeLoop n id ↔ ep.1 < n ∧ ep.2.1 < n ∧ ep.2.2 < 2 ∧
      ¬ ((ep.1 = id ∧ ep.2.1 ≠ id ∧ ep.2.2 = 0) ∨ (ep.2.1 = id ∧ ep.1 ≠ id ∧ ep.2.2 = 1)) := by
  unfold closeLoop
  simp only [List.mem_flatMap, List.mem_range, mem_closeCell]
  constructor
  · rintro ⟨i, hi, j, hj, h1, h2, h3, h4⟩
    subst h1 h2
    exact ⟨hi, hj, h3, h4⟩
  · rintro ⟨hi, hj, h3, h4⟩
    exact ⟨ep.1, hi, ep.2.1, hj, rfl, rfl, h3, h4⟩

theorem closeLoop_nodup (n id : Nat) : (closeLoop n id).Nodup :=
  nodup_cells n (closeCell id) (closeCell_nodup id)
    (fun i j ep h => ⟨((mem_closeCell id i j ep).1 h).1, ((mem_closeCell id i j ep).1 h).2.1⟩)

theorem mem_allEndpoints (n : Nat) (ep : Endpoint) :
    ep ∈ allEndpoints n ↔ ep.1 < n ∧ ep.2.1 < n ∧ ep.2.2 < 2 := by
  obtain ⟨a, b, e⟩ := ep
  unfold allEndpoints
  simp only [List.mem_flatMap, List.mem_range, List.mem_cons, List.mem_singleton,
    Prod.mk.injEq, List.mem_nil_iff, or_false]
  constructor
  · rintro ⟨i, hi, j, hj, (⟨rfl, rfl, rfl⟩ | ⟨rfl, rfl, rfl⟩)⟩ <;> exact ⟨hi, hj, by omega⟩
  · rintro ⟨hi, hj, he⟩
    refine ⟨a, hi, b, hj, ?_⟩
    have : e = 0 ∨ e = 1 := by omega
    rcases this with rfl | rfl
    · exact Or.inl ⟨rfl, rfl, rfl⟩
    · exact Or.inr ⟨rfl, rfl, rfl⟩

theorem allEndpoints_nodup (n : Nat) : (allEndpoints n).Nodup := by
  refine nodup_cells n (fun i j => [(i, j, 0), (i, j, 1)]) (fun i j => by simp) ?_
  intro i j ep h
  simp only [List.mem_cons, List.mem_singleton, List.mem_nil_iff, or_false] at h
  rcases h with rfl | rfl <;> exact ⟨rfl, rfl⟩

theorem mem_heldEndpoints (n id : Nat) (hid : id < n) (ep : Endpoint) :
    ep ∈ heldEndpoints n id ↔
      (∃ j, j < n ∧ j ≠ id ∧ ep = (id, j, 0)) ∨ (∃ i, i < n ∧ i ≠ id ∧ ep = (i, id, 1)) := by
  obtain ⟨a, b, e⟩ := ep
  unfold heldEndpoints
  simp only [List.mem_filter, mem_allEndpoints, mem_closeLoop, decide_eq_true_eq, Prod.mk.injEq]
  constructor
  · rintro ⟨⟨ha, hb, he⟩, hnot⟩
    have hnn := Classical.not_not.1 (fun h => hnot ⟨ha, hb, he, h⟩)
    rcases hnn with ⟨h1, h2, h3⟩ | ⟨h1, h2, h3⟩
    · exact Or.inl ⟨b, hb, h2, h1, rfl, h3⟩
    · exact Or.inr ⟨a, ha, h2, rfl, h1, h3⟩
  · rintro (⟨j, hj, hne, rfl, rfl, rfl⟩ | ⟨i, hi, hne, rfl, rfl, rfl⟩)
    · refine ⟨⟨hid, hj, by omega⟩, ?_⟩
      rintro ⟨_, _, _, h⟩
      exact h (Or.inl ⟨rfl, hne, rfl⟩)
    · refine ⟨⟨hi, hid, by omega⟩, ?_⟩
      rintro ⟨_, _, _, h⟩
      exact h (Or.inr ⟨rfl, hne, rfl⟩)

theorem heldEndpoints_nodup (n id : Nat) : (heldEndpoints n id).Nodup :=
  (allEndpoints_nodup n).filter _

theorem mem_ownEndpoints (n id : Nat) (ep : Endpoint) :
    ep ∈ ownEndpoints n id ↔
      (∃ j, j < n ∧ j ≠ id ∧ ep = (id, j, 0)) ∨ (∃ i, i < n ∧ i ≠ id ∧ ep = (i, id, 1)) := by
  unfold ownEndpoints
  simp only [List.mem_append, List.mem_map, (List.nodup_range n).mem_erase_iff, List.mem_range]
  constructor
  · rintro (⟨j, ⟨h1, h2⟩, rfl⟩ | ⟨i, ⟨h1, h2⟩, rfl⟩)
    · exact Or.inl ⟨j, h2, h1, rfl⟩
    · exact Or.inr ⟨i, h2, h1, rfl⟩
  · rintro (⟨j, h1, h2, rfl⟩ | ⟨i, h1, h2, rfl⟩)
    · exact Or.inl ⟨j, ⟨h2, h1⟩, rfl⟩
    · exact Or.inr ⟨i, ⟨h2, h1⟩, rfl⟩

theorem ownEndpoints_nodup (n id : Nat) : (ownEndpoints n id).Nodup := by
  unfold ownEndpoints
  rw [List.nodup_append]
  refine ⟨?_, ?_, ?_⟩
  · refine List.Nodup.map ?_ ((List.nodup_range n).erase id)
    intro a b hab
    simpa using hab
  · refine List.Nodup.map ?_ ((List.nodup_range n).erase id)
    intro a b hab
    simpa using hab
  · intro ep h1 h2
    simp only [List.mem_map] at h1 h2
    obtain ⟨j, _, rfl⟩ := h1
    obtain ⟨i, _, hi⟩ := h2
    simp at hi

/-- Claim C1: for `num_processes ≥ 2` (indeed for every `num_processes`) and
`0 ≤ k < num_processes`, after the
close loop of `process_run` has run over all cells, the ends process `k` has not
closed are exactly the `num_processes - 1` send ends `channels[k][j][0]`,
`j ≠ k`, and the `num_processes - 1` receive ends `channels[i][k][1]`, `i ≠ k`;
both ends of each diagonal cell and of each cell with `i ≠ k` and `j ≠ k` are
closed; no end is closed twice. -/
theorem C1_endpoint_partition (num_processes k : Nat) (hk : k < num_processes) :
    (∀ ep, ep ∈ heldEndpoints num_processes k ↔
        (∃ j, j < num_processes ∧ j ≠ k ∧ ep = (k, j, 0)) ∨
          (∃ i, i < num_processes ∧ i ≠ k ∧ ep = (i, k, 1))) ∧
      (heldEndpoints num_processes k).Perm (ownEndpoints num_processes k) ∧
      (((List.range num_processes).erase k).map (fun j => ((k, j, 0) : Endpoint))).length =
        num_processes - 1 ∧
      (((List.range num_processes).erase k).map (fun i => ((i, k, 1) : Endpoint))).length =
        num_processes - 1 ∧
      (∀ i, i < num_processes →
        (i, i, 0) ∈ closeLoop num_processes k ∧ (i, i, 1) ∈ closeLoop num_processes k) ∧
      (∀ i j, i < num_processes → j < num_processes → i ≠ k → j ≠ k →
        (i, j, 0) ∈ closeLoop num_processes k ∧ (i, j, 1) ∈ closeLoop num_processes k) ∧
      (closeLoop num_processes k).Nodup := by
  have hlen : ((List.range num_processes).erase k).length = num_processes - 1 := by
    rw [List.length_erase_of_mem (List.mem_range.2 hk), List.length_range]
  refine ⟨mem_heldEndpoints num_processes k hk, ?_, ?_, ?_, ?_, ?_,
    closeLoop_nodup num_processes k⟩
  · rw [List.perm_ext_iff_of_nodup (heldEndpoints_nodup _ _) (ownEndpoints_nodup _ _)]
    intro ep
    rw [mem_heldEndpoints num_processes k hk, mem_ownEndpoints]
  · rw [List.length_map, hlen]
  · rw [List.length_map, hlen]
  · intro i hi
    constructor <;> rw [mem_closeLoop] <;> refine ⟨hi, hi, by simp, ?_⟩ <;> simp
  · intro i j hi hj hik hjk
    constructor <;> rw [mem_closeLoop] <;> refine ⟨hi, hj, by simp, ?_⟩ <;> simp [hik, hjk]

theorem C1_endpoint_partition_witness :
    1 < 3 ∧ (heldEndpoints 3 1).Perm (ownEndpoints 3 1) ∧ (closeLoop 3 1).Nodup :=
  ⟨by decide, (C1_endpoint_partition 3 1 (by decide)).2.1,
    (C1_endpoint_partition 3 1 (by decide)).2.2.2.2.2.2⟩

/-! ## The receive branch -/

theorem process_handle_message_fst (p : process_t) (stream : List Byte) (uninit : Byte) :
    (process_handle_message p stream uninit).1 =
      { id := p.id, money := p.money + creditAmount stream uninit } := by
  unfold process_handle_message creditAmount
  rcases stream with _ | ⟨t, rest⟩
  · simp
  · rcases rest with _ | ⟨a, rest⟩ <;> by_cases ht : t = 1 <;> simp [ht]

theorem fds_getD (n k i : Nat) (hi : i < n) :
    (fds n k).getD i none = if i = k then none else some (i, k, 1) := by
  simp [fds, List.getD_eq_getElem?_getD, hi]

theorem poll_getD (n k i : Nat) (ready : Endpoint → Bool) (hi : i < n - 1) :
    (poll (fds n k) (n - 1) ready).getD i false =
      if i = k then false else ready (i, k, 1) := by
  have hi' : i < n := by omega
  by_cases h : i = k
  · subst h
    simp [poll, fds, List.getD_eq_getElem?_getD, List.getElem?_take, hi, hi']
  · simp [poll, fds, List.getD_eq_getElem?_getD, List.getElem?_take, hi, hi', h]

theorem process_handle_message_snd (p : process_t) (stream : List Byte) (uninit : Byte) :
    (process_handle_message p stream uninit).2.1 = restAfter stream := by
  unfold process_handle_message restAfter
  rcases stream with _ | ⟨t, rest⟩
  · simp
  · rcases rest with _ | ⟨a, rest⟩ <;> by_cases ht : t = 1 <;> simp [ht]

theorem drain_step_eq (n k i : Nat) (hi : i < n - 1) (ready : Endpoint → Bool)
    (uninit : Nat → Byte) (st : process_t × Channels) :
    drain_step (fds n k) (poll (fds n k) (n - 1) ready) uninit st i =
      if i ≠ k ∧ ready (i, k, 1) = true then
        ({ id := st.1.id, money := st.1.money + creditAmount (st.2 i k) (uninit i) },
          setChan st.2 i k (restAfter (st.2 i k)))
      else st := by
  unfold drain_step
  rw [poll_getD n k i ready hi, fds_getD n k i (by omega)]
  by_cases h : i = k
  · simp [h]
  · by_cases hr : ready (i, k, 1) = true
    · simp [h, hr, process_handle_message_fst, process_handle_message_snd]
    · simp [h, hr]

/-- The state after the first `m` rounds of the drain loop. -/
theorem drain_fold (n k : Nat) (ready : Endpoint → Bool) (uninit : Nat → Byte)
    (p : process_t) (chan : Channels) (m : Nat) (hm : m ≤ n - 1) :
    ((List.range m).foldl (drain_step (fds n k) (poll (fds n k) (n - 1) ready) uninit)
        (p, chan)).1.id = p.id ∧
      ((List.range m).foldl (drain_step (fds n k) (poll (fds n k) (n - 1) ready) uninit)
        (p, chan)).1.money =
        p.money + ∑ i in Finset.range m,
          (if i ≠ k ∧ ready (i, k, 1) = true then creditAmount (chan i k) (uninit i) else 0) ∧
      ∀ a b,
        ((List.range m).foldl (drain_step (fds n k) (poll (fds n k) (n - 1) ready) uninit)
          (p, chan)).2 a b =
          if a < m ∧ a ≠ k ∧ ready (a, k, 1) = true ∧ b = k then restAfter (chan a k)
          else chan a b := by
  induction m with
  | zero => simp
  | succ m ih =>
    obtain ⟨ih1, ih2, ih3⟩ := ih (by omega)
    rw [List.range_succ, List.foldl_append, List.foldl_cons, List.foldl_nil,
      drain_step_eq n k m (by omega), Finset.sum_range_succ]
    have hmk : ((List.range m).foldl
        (drain_step (fds n k) (poll (fds n k) (n - 1) ready) uninit) (p, chan)).2 m k =
        chan m k := by
      rw [ih3]; simp
    by_cases h : m ≠ k ∧ ready (m, k, 1) = true
    · rw [if_pos h, if_pos h]
      refine ⟨ih1, ?_, ?_⟩
      · simp only [ih2, hmk]; ring
      · intro a b
        simp only [setChan, hmk, ih3]
        by_cases ham : a = m
        · subst ham
          by_cases hb : b = k
          · subst hb; simp [h.1, h.2]
          · simp [hb]
        · have : a < m + 1 ↔ a < m := by omega
          simp [ham, this]
    · rw [if_neg h, if_neg h]
      refine ⟨ih1, by simp [ih2], ?_⟩
      intro a b
      rw [ih3]
      by_cases ham : a = m
      · subst ham
        have : ¬ (a ≠ k ∧ ready (a, k, 1) = true ∧ b = k) := fun hh => h ⟨hh.1, hh.2.1⟩
        simp [this]
      · have : a < m + 1 ↔ a < m := by omega
        simp [this]

/-- The receive branch, in closed form: the id is kept, the balance grows by
what each polled and readable end `channels[i][id][1]`, `i < num_processes - 1`,
contributes, and one frame is taken off each of these ends. -/
theorem receive_branch_eq (n : Nat) (ready : Endpoint → Bool) (uninit : Nat → Byte)
    (p : process_t) (chan : Channels) :
    (receive_branch n ready uninit p chan).1.id = p.id ∧
      (receive_branch n ready uninit p chan).1.money =
        p.money + ∑ i in Finset.range (n - 1),
          (if i ≠ p.id ∧ ready (i, p.id, 1) = true then
            creditAmount (chan i p.id) (uninit i) else 0) ∧
      ∀ a b, (receive_branch n ready uninit p chan).2 a b =
        if a < n - 1 ∧ a ≠ p.id ∧ ready (a, p.id, 1) = true ∧ b = p.id then
          restAfter (chan a p.id)
        else chan a b :=
  drain_fold n p.id ready uninit p chan (n - 1) (Nat.le_refl _)

/-- Claim C7: for every process state and every tag byte `t ≠ 0x01`,
`process_handle_message` on a frame starting with `t` leaves id and balance
unchanged and consumes only the tag byte.  And in one drain of the receive
branch in which the readable end `j` holds such a frame while every other
readable end `i` holds a valid Credit frame of amount `amt i`, the id is kept,
the final balance is the initial balance plus the sum of those amounts, and
only the tag byte is taken off the end `j`. -/
theorem C7_unknown_kind_inert (num_processes : Nat) (ready : Endpoint → Bool)
    (uninit : Nat → Byte) (p : process_t) (chan : Channels) (j : Nat) (t : Byte)
    (rest : List Byte) (amt : Nat → Byte)
    (ht : t ≠ 1)
    (hj : j < num_processes - 1) (hjp : j ≠ p.id) (hjr : ready (j, p.id, 1) = true)
    (hjc : chan j p.id = t :: rest)
    (hvalid : ∀ i, i < num_processes - 1 → i ≠ p.id → i ≠ j → ready (i, p.id, 1) = true →
      ∃ r, chan i p.id = 1 :: amt i :: r) :
    (∀ (q : process_t) (rest' : List Byte) (u : Byte),
        process_handle_message q (t :: rest') u = (q, rest', Handled.undefinedType)) ∧
      (receive_branch num_processes ready uninit p chan).1.id = p.id ∧
      (receive_branch num_processes ready uninit p chan).1.money =
        p.money + ∑ i in (Finset.range (num_processes - 1)).erase j,
          (if i ≠ p.id ∧ ready (i, p.id, 1) = true then ((amt i).val : Int) else 0) ∧
      (receive_branch num_processes ready uninit p chan).2 j p.id = rest := by
  obtain ⟨h1, h2, h3⟩ := receive_branch_eq num_processes ready uninit p chan
  refine ⟨fun q rest' u => process_handle_message_other q t rest' u ht, h1, ?_, ?_⟩
  · rw [h2, ← Finset.add_sum_erase _ _ (Finset.mem_range.2 hj)]
    have hzero : creditAmount (chan j p.id) (uninit j) = 0 := by
      rw [hjc]; simp [creditAmount, ht]
    rw [if_pos ⟨hjp, hjr⟩, hzero, zero_add]
    congr 1
    apply Finset.sum_congr rfl
    intro i hi
    rw [Finset.mem_erase, Finset.mem_range] at hi
    by_cases hc : i ≠ p.id ∧ ready (i, p.id, 1) = true
    · obtain ⟨r, hr⟩ := hvalid i hi.2 hc.1 hi.1 hc.2
      rw [if_pos hc, if_pos hc, hr]
      simp [creditAmount]
    · rw [if_neg hc, if_neg hc]
  · rw [h3, if_pos ⟨hj, hjp, hjr, rfl⟩, hjc]
    simp [restAfter, ht]

theorem C7_unknown_kind_inert_witness :
    (receive_branch 4 (fun _ => true) (fun _ => 0) (process_init 3) exampleChannels).1.money =
        (process_init 3).money + ∑ i in (Finset.range (4 - 1)).erase 0,
          (if i ≠ (process_init 3).id ∧ (fun _ => true) (i, (process_init 3).id, 1) = true then
            (((fun i => if i = 1 then 30 else 5 : Nat → Byte) i).val : Int) else 0) ∧
      (receive_branch 4 (fun _ => true) (fun _ => 0) (process_init 3) exampleChannels).2 0
        (process_init 3).id = [9] :=
  (C7_unknown_kind_inert 4 (fun _ => true) (fun _ => 0) (process_init 3) exampleChannels 0 2 [9]
    (fun i => if i = 1 then 30 else 5) (by decide) (by decide) (by decide) rfl (by decide)
    (by
      intro i hi h3 h0 _
      have hcases : i = 1 ∨ i = 2 := by omega
      rcases hcases with rfl | rfl
      · exact ⟨[], by decide⟩
      · exact ⟨[1, 8], by decide⟩)).2.2

/-! ## Determinism of the draws -/

theorem process_run_step_sameDraws (RAND_MAX n : Nat) (rand : Nat → Nat) (env1 env2 : Env)
    (s1 s2 : RunState) (t : Nat) (h : SameDraws s1 s2) :
    SameDraws (process_run_step RAND_MAX n rand env1 s1 t)
      (process_run_step RAND_MAX n rand env2 s2 t) := by
  obtain ⟨hid, hcalls, hdraws, hwrites⟩ := h
  unfold process_run_step
  rw [hcalls]
  by_cases hc : randn RAND_MAX (rand s2.calls) 5 ≠ 0
  · simp only [hc, if_true, ne_eq, not_false_eq_true]
    refine ⟨?_, rfl, ?_, ?_⟩
    · simpa [process_send_message] using hid
    · simp [process_send_message, hid, hdraws]
    · simp [process_send_message, hid, hwrites]
  · simp only [hc, if_false]
    refine ⟨?_, rfl, ?_, hwrites⟩
    · rw [(receive_branch_eq _ _ _ _ _).1, (receive_branch_eq _ _ _ _ _).1]
      exact hid
    · simp [hdraws]

theorem process_run_sameDraws (RAND_MAX n : Nat) (rand : Nat → Nat) (env1 env2 : Env)
    (s1 s2 : RunState) (h : SameDraws s1 s2) (fuel : Nat) :
    SameDraws ((List.range fuel).foldl (process_run_step RAND_MAX n rand env1) s1)
      ((List.range fuel).foldl (process_run_step RAND_MAX n rand env2) s2) := by
  induction fuel with
  | zero => simpa using h
  | succ k ih =>
    rw [List.range_succ, List.foldl_append, List.foldl_append]
    exact process_run_step_sameDraws RAND_MAX n rand env1 env2 _ _ k ih

/-- Claim C8: with `rand()` a deterministic stream fixed by the argument
`seed + id` of `srand`, for fixed `seed`, `num_processes` and `id` the draws
made by the first `fuel` iterations of `process_run` (the choice, then
destination and amount on a send, or the timeout on a receive), the number of
calls of `rand()` and the frames written are the same in any two runs,
whatever arrives on the channels, whatever `poll` answers and whatever the
balance is. -/
theorem C8_draws_determined_by_seed (RAND_MAX num_processes : Nat) (seed : Int)
    (srand_rand : Int → Nat → Nat) (id fuel : Nat) (env1 env2 : Env) (money1 money2 : Int)
    (chan1 chan2 : Channels) :
    (process_run RAND_MAX num_processes seed srand_rand env1
        { id := id, money := money1 } chan1 fuel).draws =
      (process_run RAND_MAX num_processes seed srand_rand env2
        { id := id, money := money2 } chan2 fuel).draws ∧
    (process_run RAND_MAX num_processes seed srand_rand env1
        { id := id, money := money1 } chan1 fuel).calls =
      (process_run RAND_MAX num_processes seed srand_rand env2
        { id := id, money := money2 } chan2 fuel).calls ∧
    (process_run RAND_MAX num_processes seed srand_rand env1
        { id := id, money := money1 } chan1 fuel).writes =
      (process_run RAND_MAX num_processes seed srand_rand env2
        { id := id, money := money2 } chan2 fuel).writes := by
  have h := process_run_sameDraws RAND_MAX num_processes (srand_rand (seed + (id : Int)))
    env1 env2
    { p := { id := id, money := money1 }, chan := chan1, calls := 0, draws := [], writes := [] }
    { p := { id := id, money := money2 }, chan := chan2, calls := 0, draws := [], writes := [] }
    ⟨rfl, rfl, rfl, rfl⟩ fuel
  exact ⟨h.2.2.1, h.2.1, h.2.2.2⟩

/-! ## Conservation of money -/

theorem encode_cons (a : Byte) (amounts : List Byte) :
    encode (a :: amounts) = 1 :: a :: encode amounts := by
  simp [encode]

theorem inFlight_encode_append (amounts : List Byte) (a : Byte) :
    inFlight (encode amounts ++ [1, a]) = inFlight (encode amounts) + (a.val : Int) := by
  induction amounts with
  | nil => simp [encode, inFlight]
  | cons b bs ih =>
    rw [encode_cons]
    have h : inFlight (1 :: b :: (encode bs ++ [1, a])) =
        (b.val : Int) + inFlight (encode bs ++ [1, a]) := by simp [inFlight]
    have h' : inFlight (1 :: b :: encode bs) = (b.val : Int) + inFlight (encode bs) := by
      simp [inFlight]
    rw [List.cons_append, List.cons_append, h, h', ih]; ring

theorem wellFramed_append (stream : List Byte) (a : Byte) (h : WellFramed stream) :
    WellFramed (stream ++ [1, a]) ∧
      inFlight (stream ++ [1, a]) = inFlight stream + (a.val : Int) := by
  obtain ⟨amounts, rfl⟩ := h
  refine ⟨⟨amounts ++ [a], by simp [encode]⟩, inFlight_encode_append amounts a⟩

theorem wellFramed_restAfter (stream : List Byte) (uninit : Byte) (h : WellFramed stream) :
    WellFramed (restAfter stream) ∧
      inFlight stream = creditAmount stream uninit + inFlight (restAfter stream) := by
  obtain ⟨amounts, rfl⟩ := h
  rcases amounts with _ | ⟨a, rest⟩
  · exact ⟨⟨[], by simp [encode, restAfter]⟩, by simp [encode, restAfter, creditAmount, inFlight]⟩
  · rw [encode_cons]
    exact ⟨⟨rest, by simp [restAfter]⟩, by simp [restAfter, creditAmount, inFlight]⟩

theorem sum_setMoney (n i : Nat) (hi : i < n) (money : Nat → Int) (v : Int) :
    ∑ x in Finset.range n, setMoney money i v x =
      (∑ x in Finset.range n, money x) + (v - money i) := by
  have h : ∀ x, setMoney money i v x = money x + (if x = i then v - money i else 0) := by
    intro x
    unfold setMoney
    split_ifs with hx
    · subst hx; ring
    · ring
  simp only [h, Finset.sum_add_distrib, Finset.sum_ite_eq', Finset.mem_range, hi, if_true]

theorem sum_cell (n i j : Nat) (hi : i < n) (hj : j < n) (d : Int) :
    (∑ a in Finset.range n, ∑ b in Finset.range n, if a = i ∧ b = j then d else 0) = d := by
  have h : ∀ a, (∑ b in Finset.range n, if a = i ∧ b = j then d else (0 : Int)) =
      if a = i then d else 0 := by
    intro a
    by_cases ha : a = i
    · simp [ha, hj]
    · simp [ha]
  simp only [h, Finset.sum_ite_eq', Finset.mem_range, hi, if_true]

theorem sum_setChan (n i j : Nat) (hi : i < n) (hj : j < n) (chan : Channels)
    (stream : List Byte) :
    (∑ a in Finset.range n, ∑ b in Finset.range n, inFlight (setChan chan i j stream a b)) =
      (∑ a in Finset.range n, ∑ b in Finset.range n, inFlight (chan a b)) +
        (inFlight stream - inFlight (chan i j)) := by
  have h : ∀ a b, inFlight (setChan chan i j stream a b) =
      inFlight (chan a b) + (if a = i ∧ b = j then inFlight stream - inFlight (chan i j) else 0) := by
    intro a b
    unfold setChan
    split_ifs with hx
    · obtain ⟨rfl, rfl⟩ := hx; ring
    · ring
  simp only [h, Finset.sum_add_distrib, sum_cell n i j hi hj]

theorem conserved_init (n : Nat) : Conserved n Network.init := by
  refine ⟨fun i j => ⟨[], rfl⟩, ?_⟩
  simp [Network.total, Network.init, process_init, inFlight, mul_comm]

theorem conserved_send (RAND_MAX n i j r : Nat) (hi : i < n) (hj : j < n) (s : Network)
    (h : Conserved n s) : Conserved n (s.send RAND_MAX i j r) := by
  obtain ⟨hwf, htot⟩ := h
  obtain ⟨hwf', hsum⟩ := wellFramed_append (s.chan i j) (toByte (randn RAND_MAX r 256)) (hwf i j)
  have hsend : s.send RAND_MAX i j r =
      { money := setMoney s.money i (s.money i - ((toByte (randn RAND_MAX r 256)).val : Int))
        chan := setChan s.chan i j (s.chan i j ++ [1, toByte (randn RAND_MAX r 256)]) } := rfl
  rw [hsend]
  constructor
  · intro a b
    simp only [setChan]
    split_ifs
    · exact hwf'
    · exact hwf a b
  · unfold Network.total at htot ⊢
    simp only [sum_setMoney n i hi, sum_setChan n i j hi hj, hsum]
    linarith

theorem conserved_handle (n i j : Nat) (uninit : Byte) (hi : i < n) (hj : j < n) (s : Network)
    (h : Conserved n s) : Conserved n (s.handle i j uninit) := by
  obtain ⟨hwf, htot⟩ := h
  obtain ⟨hwf', hsum⟩ := wellFramed_restAfter (s.chan i j) uninit (hwf i j)
  have hhandle : s.handle i j uninit =
      { money := setMoney s.money j (s.money j + creditAmount (s.chan i j) uninit)
        chan := setChan s.chan i j (restAfter (s.chan i j)) } := by
    simp [Network.handle, process_handle_message_fst, process_handle_message_snd]
  rw [hhandle]
  constructor
  · intro a b
    simp only [setChan]
    split_ifs
    · exact hwf'
    · exact hwf a b
  · unfold Network.total at htot ⊢
    simp only [sum_setMoney n j hj, sum_setChan n i j hi hj]
    linarith

theorem sum_drained (n k : Nat) (hk : k < n) (c : Nat → Prop) [DecidablePred c]
    (f : Nat → Int) :
    (∑ a in Finset.range n, ∑ b in Finset.range n,
        if a < n - 1 ∧ c a ∧ b = k then f a else 0) =
      ∑ a in Finset.range (n - 1), if c a then f a else 0 := by
  have h : ∀ a, (∑ b in Finset.range n, if a < n - 1 ∧ c a ∧ b = k then f a else (0 : Int)) =
      if a < n - 1 ∧ c a then f a else 0 := by
    intro a
    by_cases ha : a < n - 1 ∧ c a
    · simp [ha.1, ha.2, hk]
    · have : ∀ b, ¬ (a < n - 1 ∧ c a ∧ b = k) := fun b hh => ha ⟨hh.1, hh.2.1⟩
      simp [this, ha]
  simp only [h]
  have hn : n = (n - 1) + 1 := by omega
  conv_lhs => rw [hn, Finset.sum_range_succ]
  have hlast : ¬ (n - 1 < n - 1 + 1 - 1 ∧ c (n - 1)) := by
    intro hh; omega
  rw [if_neg hlast, add_zero]
  apply Finset.sum_congr rfl
  intro a ha
  rw [Finset.mem_range] at ha
  have : a < n - 1 + 1 - 1 := by omega
  simp [this, ha]

theorem conserved_receive (n k : Nat) (ready : Endpoint → Bool) (uninit : Nat → Byte)
    (hk : k < n) (s : Network) (h : Conserved n s) :
    Conserved n (s.receive n k ready uninit) := by
  obtain ⟨hwf, htot⟩ := h
  obtain ⟨_, h2, h3⟩ := receive_branch_eq n ready uninit { id := k, money := s.money k } s.chan
  simp only at h2 h3
  constructor
  · intro a b
    show WellFramed ((receive_branch n ready uninit { id := k, money := s.money k } s.chan).2 a b)
    rw [h3]
    split_ifs
    · exact (wellFramed_restAfter _ (uninit a) (hwf a k)).1
    · exact hwf a b
  · have hcell : ∀ a b,
        inFlight ((receive_branch n ready uninit { id := k, money := s.money k } s.chan).2 a b) =
          inFlight (s.chan a b) -
            (if a < n - 1 ∧ (a ≠ k ∧ ready (a, k, 1) = true) ∧ b = k then
              creditAmount (s.chan a k) (uninit a) else 0) := by
      intro a b
      rw [h3]
      by_cases hc : a < n - 1 ∧ a ≠ k ∧ ready (a, k, 1) = true ∧ b = k
      · have hc' : a < n - 1 ∧ (a ≠ k ∧ ready (a, k, 1) = true) ∧ b = k :=
          ⟨hc.1, ⟨hc.2.1, hc.2.2.1⟩, hc.2.2.2⟩
        rw [if_pos hc, if_pos hc']
        have := (wellFramed_restAfter _ (uninit a) (hwf a k)).2
        rw [hc.2.2.2]
        linarith
      · have hc' : ¬ (a < n - 1 ∧ (a ≠ k ∧ ready (a, k, 1) = true) ∧ b = k) :=
          fun hh => hc ⟨hh.1, hh.2.1.1, hh.2.1.2, hh.2.2⟩
        rw [if_neg hc, if_neg hc', sub_zero]
    have hrecv : s.receive n k ready uninit =
        { money := setMoney s.money k
            (receive_branch n ready uninit { id := k, money := s.money k } s.chan).1.money
          chan := (receive_branch n ready uninit { id := k, money := s.money k } s.chan).2 } := rfl
    rw [hrecv]
    unfold Network.total at htot ⊢
    simp only [sum_setMoney n k hk, hcell, Finset.sum_sub_distrib,
      sum_drained n k hk (fun a => a ≠ k ∧ ready (a, k, 1) = true), h2]
    linarith

theorem conserved_step (RAND_MAX n : Nat) (s s' : Network) (a : Action)
    (h : Conserved n s) (hs : s.step RAND_MAX n a = some s') : Conserved n s' := by
  cases a with
  | send i j r =>
    simp only [Network.step] at hs
    split_ifs at hs with hc
    cases hs
    exact conserved_send RAND_MAX n i j r hc.1 hc.2.1 s h
  | handle i j uninit =>
    simp only [Network.step] at hs
    split_ifs at hs with hc
    cases hs
    exact conserved_handle n i j uninit hc.1 hc.2 s h
  | receive k ready uninit =>
    simp only [Network.step] at hs
    split_ifs at hs with hc
    cases hs
    exact conserved_receive n k ready uninit hc s h

theorem conserved_exec (RAND_MAX n : Nat) (trace : List Action) (s s' : Network)
    (h : Conserved n s) (hs : Network.exec RAND_MAX n s trace = some s') : Conserved n s' := by
  induction trace generalizing s with
  | nil =>
    simp only [Network.exec] at hs
    cases hs
    exact h
  | cons a as ih =>
    simp only [Network.exec] at hs
    cases hstep : s.step RAND_MAX n a with
    | none => rw [hstep] at hs; cases hs
    | some s1 =>
      rw [hstep] at hs
      exact ih s1 (conserved_step RAND_MAX n s s1 a h hstep) hs

/-- Claim C4: start with `num_processes` processes of balance 100 and empty
channels; let processes send (`process_send_message` to another process, for
any value of `rand()`), handle one pending frame (`process_handle_message`) or
run the whole receive branch, in any order.  In every state reached, the sum
of all balances plus the sum of the amounts of the frames still queued is
`100 * num_processes`.  In particular the amount `process_send_message`
subtracts from the balance is the amount byte it puts in the frame. -/
theorem C4_conservation (RAND_MAX num_processes : Nat) (trace : List Action) (s : Network)
    (h : Network.exec RAND_MAX num_processes Network.init trace = some s) :
    s.total num_processes = 100 * (num_processes : Int) ∧
      ∀ (r : Nat) (state : process_t) (dst : Nat),
        ∃ amt : Byte, (process_send_message RAND_MAX r state dst).2.2 = [1, amt] ∧
          (process_send_message RAND_MAX r state dst).1.money = state.money - (amt.val : Int) :=
  ⟨(conserved_exec RAND_MAX num_processes trace Network.init s
      (conserved_init num_processes) h).2,
    fun r _ _ => ⟨toByte (randn RAND_MAX r 256), rfl, rfl⟩⟩

theorem C4_conservation_witness :
    Network.exec 2147483647 2 Network.init exampleTrace =
        some (((Network.init.send 2147483647 0 1 251658240).send 2147483647 1 0 83886080).handle
          0 1 0) ∧
      (((Network.init.send 2147483647 0 1 251658240).send 2147483647 1 0 83886080).handle
          0 1 0).total 2 = 100 * ((2 : Nat) : Int) :=
  ⟨rfl, (C4_conservation 2147483647 2 exampleTrace _ rfl).1⟩

/-! ## What `poll` is given -/

theorem fds_take (n k : Nat) :
    (fds n k).take (n - 1) =
      (List.range (n - 1)).map fun i => if i = k then none else some ((i, k, 1) : Endpoint) := by
  unfold fds
  rw [← List.map_take, List.take_range]
  congr 2
  omega

/-- The receive ends `poll` is given: those of the senders
`i < num_processes - 1` other than the process itself. -/
theorem mem_polled (n k i : Nat) :
    some ((i, k, 1) : Endpoint) ∈ (fds n k).take (n - 1) ↔ i < n - 1 ∧ i ≠ k := by
  rw [fds_take]
  simp only [List.mem_map, List.mem_range]
  constructor
  · rintro ⟨a, ha, h⟩
    split_ifs at h with hak
    simp only [Option.some.injEq, Prod.mk.injEq] at h
    obtain ⟨rfl, _, _⟩ := h
    exact ⟨ha, hak⟩
  · rintro ⟨hi, hik⟩
    exact ⟨i, hi, by simp [hik]⟩

/-- Claim C2, evaluated where it fails: in a system of `k + m + 2` processes
the receive end `channels[k+m+1][k][1]` of process `k`, the one fed by the last
process, is not among the entries `poll` is given (with 2 processes, process 0
polls its own placeholder only), and a receive branch of process `k` leaves
the balance and the bytes pending on that channel as they were, whatever
`poll` answers: a Credit frame pending from the last process is not received. -/
theorem C2_last_sender_never_polled :
    (∀ k m : Nat,
        some ((k + m + 1, k, 1) : Endpoint) ∉ (fds (k + m + 2) k).take (k + m + 2 - 1)) ∧
      (∀ (k m : Nat) (ready : Endpoint → Bool) (uninit : Nat → Byte) (money : Int)
          (chan : Channels),
        (receive_branch (k + m + 2) ready uninit { id := k, money := money } chan).2
          (k + m + 1) k = chan (k + m + 1) k) ∧
      (fds 2 0).take (2 - 1) = [none] ∧
      ∀ (ready : Endpoint → Bool) (uninit : Nat → Byte),
        (receive_branch 2 ready uninit (process_init 0)
            (fun a b => if a = 1 ∧ b = 0 then [1, 10] else [])).1.money = 100 ∧
          (receive_branch 2 ready uninit (process_init 0)
            (fun a b => if a = 1 ∧ b = 0 then [1, 10] else [])).2 1 0 = [1, 10] := by
  refine ⟨?_, ?_, by decide, ?_⟩
  · intro k m
    rw [fds_take]
    simp only [List.mem_map, List.mem_range, not_exists, not_and]
    intro i hi
    split_ifs
    · simp
    · intro h
      simp only [Option.some.injEq, Prod.mk.injEq] at h
      omega
  · intro k m ready uninit money chan
    rw [(receive_branch_eq _ ready uninit _ chan).2.2]
    simp
  · intro ready uninit
    obtain ⟨_, h2, h3⟩ := receive_branch_eq 2 ready uninit (process_init 0)
      (fun a b => if a = 1 ∧ b = 0 then [1, 10] else [])
    constructor
    · rw [h2]
      simp [process_init]
    · rw [h3]
      simp [process_init]

/-! ## The controlled exchange of two processes -/

theorem receive_money_zero (s : Network) (k : Nat) (ready : Endpoint → Bool)
    (uninit : Nat → Byte) : (s.receive 2 k ready uninit).money 0 = s.money 0 := by
  show setMoney s.money k
    (receive_branch 2 ready uninit { id := k, money := s.money k } s.chan).1.money 0 = s.money 0
  unfold setMoney
  split_ifs with h
  · subst h
    rw [(receive_branch_eq 2 ready uninit _ s.chan).2.1]
    simp
  · rfl

theorem receiveAll_money_zero (uninit : Nat → Byte) (sched : List Nat) (s : Network) :
    (s.receiveAll 2 uninit sched).money 0 = s.money 0 := by
  induction sched generalizing s with
  | nil => rfl
  | cons k ks ih =>
    simp only [Network.receiveAll]
    rw [ih, receive_money_zero]

/-- Claim C5, evaluated where it fails: two processes, both at 100.  When
A = 0 sends 30 to B = 1 and B sends 10 to A, then however often and in whatever
order the two run the receive branch (`poll` reporting every polled end with
data as readable), the balance of A stays 70, not 80; after the rounds
0, 1, 0, 1 the balances are 70 and 120 and the frame `[1, 10]` is still queued.
When A = 1 and B = 0, the balance of B stays 90, not 120. -/
theorem C5_process_zero_never_receives :
    (∀ (uninit : Nat → Byte) (sched : List Nat),
        (((Network.init.send 2147483647 0 1 251658240).send 2147483647 1 0
          83886080).receiveAll 2 uninit sched).money 0 = 70) ∧
      (((Network.init.send 2147483647 0 1 251658240).send 2147483647 1 0
          83886080).receiveAll 2 (fun _ => 0) [0, 1, 0, 1]).money 1 = 120 ∧
      (((Network.init.send 2147483647 0 1 251658240).send 2147483647 1 0
          83886080).receiveAll 2 (fun _ => 0) [0, 1, 0, 1]).chan 1 0 = [1, 10] ∧
      (∀ (uninit : Nat → Byte) (sched : List Nat),
        (((Network.init.send 2147483647 1 0 251658240).send 2147483647 0 1
          83886080).receiveAll 2 uninit sched).money 0 = 90) ∧
      (((Network.init.send 2147483647 1 0 251658240).send 2147483647 0 1
          83886080).receiveAll 2 (fun _ => 0) [0, 1, 0, 1]).money 1 = 80 := by
  refine ⟨?_, by decide, by decide, ?_, by decide⟩
  · intro uninit sched
    rw [receiveAll_money_zero]
    decide
  · intro uninit sched
    rw [receiveAll_money_zero]
    decide

end Mp1
